import Mathlib

/-!
Verification of the MatrixProductState State wrapper
(src/QRNG-unity/Assets/StreamingAssets/.q/src/simulators/matrix_product_state/matrix_product_state.hpp)
as a shallow embedding in Lean 4.

The internal MPS engine (matrix_product_state_internal.hpp/cpp) and the
framework utilities are not part of the sources under verification; the
operations the wrapper delegates to them are taken as abstract function
parameters, and the few helpers whose behaviour the spec fixes are
modelled from the spec (each such definition says so in its doc comment).
-/

deriving instance DecidableEq for Except

namespace MPSVerify

/-- Complex scalar stand-in.  The wrapper code under verification never
performs arithmetic on amplitudes, it only moves vectors and matrices
around, so an opaque pair of integers suffices. -/
abbrev Cplx := Int × Int

/-- reg_t: a list of qubit indices / outcome bits. -/
abbrev reg_t := List Nat

/-- cvector_t: a complex vector. -/
abbrev cvector_t := List Cplx

/-- Abstract stand-in for the internal MPS class, which lives in
matrix_product_state_internal.hpp/cpp (not among the verified sources).
Only its qubit count is observable to the wrapper; the rest of its data is
an opaque payload.  Deep copy is value copy. -/
structure MPS where
  num_qubits : Nat
  payload : Nat
deriving DecidableEq, Repr

/-- Abstract stand-in for the classical-register state held by the base
class (creg_). -/
structure CReg where
  data : List Nat
deriving DecidableEq, Repr

/-- The simulator state object: the MPS register plus the classical
registers inherited from the base class. -/
structure StateS where
  qreg : MPS
  creg : CReg
deriving DecidableEq, Repr

/-- Abstract random-number engine (RngEngine); the wrapper only threads it
through. -/
structure RngEngine where
  seed : Nat
deriving DecidableEq, Repr

/-- Sample_measure_alg enum. -/
inductive Sample_measure_alg where
  | PROB
  | APPLY_MEASURE
  | HEURISTIC
deriving DecidableEq, Repr

/-- Which of the two sampling routines State::sample_measure ends up
calling. -/
inductive SampleStrategy where
  | PROB
  | APPLY
deriving DecidableEq, Repr

/-!
Exact nonnegative fractions, used to embed the double-precision threshold
computations of State::sample_measure exactly.  The fractions are kept
unnormalized so that every operation is plain Nat arithmetic.
-/

/-- An unnormalized nonnegative fraction num/den. -/
structure Frac where
  num : Nat
  den : Nat
deriving DecidableEq, Repr

/-- Fraction multiplication (componentwise, no normalization). -/
def Frac.mul (x y : Frac) : Frac := ⟨x.num * y.num, x.den * y.den⟩

/-- Fraction power. -/
def Frac.fpow (x : Frac) : Nat → Frac
  | 0 => ⟨1, 1⟩
  | n + 1 => (Frac.fpow x n).mul x

/-- Fraction comparison by cross multiplication (exact, assuming positive
denominators). -/
def Frac.lt (x y : Frac) : Prop := x.num * y.den < y.num * x.den

instance (x y : Frac) : Decidable (Frac.lt x y) := Nat.decLt _ _

/-- The rational value of a fraction. -/
def Frac.toRat (x : Frac) : ℚ := (x.num : ℚ) / (x.den : ℚ)

open Sample_measure_alg in
/-- The branch structure of State::sample_measure (matrix_product_state.hpp
lines 757-803), as a function of the configured algorithm, the number of
measured qubits, the shot count and the maximum bond dimension of the
register.  The double-precision computations
shots_dbl < 12.0 * pow(1.85, num_qubits_dbl - 10.0) and so on are embedded
as exact fractions: 1.85 is 185/100, 1.75 is 175/100, 1.65 is 165/100,
2.5 is 25/10, 0.5 is 5/10. -/
def sample_measure_select (alg : Sample_measure_alg) (num_qubits : Nat)
    (shots : Nat) (max_bond_dim : Nat) : SampleStrategy :=
  if alg = PROB then
    SampleStrategy.PROB
  else if alg = APPLY_MEASURE ∨ num_qubits > 26 then
    SampleStrategy.APPLY
  else if num_qubits < 10 then
    SampleStrategy.PROB
  else if max_bond_dim ≤ 2 then
    (if Frac.lt ⟨shots, 1⟩ (Frac.mul ⟨12, 1⟩ (Frac.fpow ⟨185, 100⟩ (num_qubits - 10))) then
      SampleStrategy.APPLY else SampleStrategy.PROB)
  else if max_bond_dim ≤ 4 then
    (if Frac.lt ⟨shots, 1⟩ (Frac.mul ⟨3, 1⟩ (Frac.fpow ⟨175, 100⟩ (num_qubits - 10))) then
      SampleStrategy.APPLY else SampleStrategy.PROB)
  else if max_bond_dim ≤ 8 then
    (if Frac.lt ⟨shots, 1⟩ (Frac.mul ⟨25, 10⟩ (Frac.fpow ⟨165, 100⟩ (num_qubits - 10))) then
      SampleStrategy.APPLY else SampleStrategy.PROB)
  else if max_bond_dim ≤ 16 then
    (if Frac.lt ⟨shots, 1⟩ (Frac.mul ⟨5, 10⟩ (Frac.fpow ⟨175, 100⟩ (num_qubits - 10))) then
      SampleStrategy.APPLY else SampleStrategy.PROB)
  else
    SampleStrategy.PROB

/-- The per-shot loop of State::sample_measure_using_apply_measure
(lines 833-848): for every shot, the scratch register temp is
re-initialized from qreg_ (MPS::initialize on another MPS is a deep copy,
i.e. value copy) and the destructive measurement runs on temp.  The
measurement routine of the internal MPS class is the abstract parameter
appm, returning the outcome together with the collapsed register and the
advanced random engine. -/
def sm_apply_loop (appm : MPS → reg_t → RngEngine → reg_t × MPS × RngEngine)
    (qreg : MPS) (qubits : reg_t) : Nat → RngEngine → List reg_t × RngEngine
  | 0, _rng => ([], _rng)
  | n + 1, rng =>
    let temp := qreg
    let r := appm temp qubits rng
    let rest := sm_apply_loop appm qreg qubits n r.2.2
    (r.1 :: rest.1, rest.2)

/-- State::sample_measure_using_apply_measure: a const method; it returns
the collected samples and leaves the state object unchanged. -/
def State.sample_measure_using_apply_measure
    (appm : MPS → reg_t → RngEngine → reg_t × MPS × RngEngine)
    (st : StateS) (qubits : reg_t) (shots : Nat) (rng : RngEngine) :
    List reg_t × StateS × RngEngine :=
  let r := sm_apply_loop appm st.qreg qubits shots rng
  (r.1, st, r.2)

/-- Gates enum (the values the gateset_ table maps to). -/
inductive Gates where
  | id | x | y | z | s | sdg | h | sx | t | tdg
  | u1 | u2 | u3
  | cx | cz | cu1 | swap
  | mcx
deriving DecidableEq, Repr

/-- Snapshots enum. -/
inductive Snapshots where
  | statevector | cmemory | cregister
  | probs | probs_var | densmat | densmat_var
  | expval_pauli | expval_pauli_var | expval_pauli_shot
  | expval_matrix | expval_matrix_var | expval_matrix_shot
deriving DecidableEq, Repr

/-- A circuit operation as seen by apply_gate / apply_snapshot: only its
name, target qubits and (opaque) parameters matter to the dispatch code. -/
structure Op where
  name : String
  qubits : reg_t
  params : cvector_t

/-- The gateset_ table (lines 293-321). -/
def gateset_ : List (String × Gates) :=
  [("id", Gates.id), ("x", Gates.x), ("y", Gates.y), ("z", Gates.z),
   ("s", Gates.s), ("sdg", Gates.sdg), ("h", Gates.h), ("sx", Gates.sx),
   ("t", Gates.t), ("tdg", Gates.tdg),
   ("p", Gates.u1), ("u1", Gates.u1), ("u2", Gates.u2), ("u3", Gates.u3),
   ("u", Gates.u3), ("U", Gates.u3),
   ("CX", Gates.cx), ("cx", Gates.cx), ("cz", Gates.cz),
   ("cu1", Gates.cu1), ("cp", Gates.cu1), ("swap", Gates.swap),
   ("ccx", Gates.mcx)]

/-- The snapshotset_ table (lines 323-337). -/
def snapshotset_ : List (String × Snapshots) :=
  [("statevector", Snapshots.statevector),
   ("probabilities", Snapshots.probs),
   ("expectation_value_pauli", Snapshots.expval_pauli),
   ("expectation_value_matrix", Snapshots.expval_matrix),
   ("probabilities_with_variance", Snapshots.probs_var),
   ("density_matrix", Snapshots.densmat),
   ("density_matrix_with_variance", Snapshots.densmat_var),
   ("expectation_value_pauli_with_variance", Snapshots.expval_pauli_var),
   ("expectation_value_matrix_with_variance", Snapshots.expval_matrix_var),
   ("expectation_value_pauli_single_shot", Snapshots.expval_pauli_shot),
   ("expectation_value_matrix_single_shot", Snapshots.expval_matrix_shot),
   ("memory", Snapshots.cmemory),
   ("register", Snapshots.cregister)]

/-- State::apply_gate (lines 625-699): look the name up in gateset_; when
it is absent, throw std::invalid_argument naming the offender before
touching the register.  The per-gate dispatch onto the internal MPS class
is the abstract parameter applyKnown. -/
def State.apply_gate (applyKnown : Gates → Op → MPS → MPS) (op : Op)
    (st : StateS) : Except String StateS :=
  match gateset_.lookup op.name with
  | none =>
    Except.error
      ("MatrixProductState::State::invalid gate instruction \x27" ++ op.name ++ "\x27.")
  | some g => Except.ok { st with qreg := applyKnown g op st.qreg }

/-- State::apply_snapshot (lines 850-905): look the name up in
snapshotset_; when it is absent, throw std::invalid_argument naming the
offender.  The per-snapshot handler is the abstract parameter handler. -/
def State.apply_snapshot (handler : Snapshots → Op → StateS → StateS)
    (op : Op) (st : StateS) : Except String StateS :=
  match snapshotset_.lookup op.name with
  | none =>
    Except.error
      ("MatrixProductState::invalid snapshot instruction \x27" ++ op.name ++ "\x27.")
  | some sn => Except.ok (handler sn op st)

/-- Modelled from the spec: reverse_bits indexes the bit-reversal
permutation used by reverse_all_bits (framework/utils.hpp is not among
the verified sources).  Bit k of the input becomes bit n-1-k of the
output. -/
def reverse_bits : Nat → Nat → Nat
  | 0, _ => 0
  | n + 1, i => (i % 2) * 2 ^ n + reverse_bits n (i / 2)

/-- Modelled from the spec: reverse_all_bits (framework/utils.hpp, not
among the verified sources) permutes a length 2^n statevector so that the
entry at position i comes from the position with the n index bits of i
reversed; the spec fixes this as the ingest/egress convention between the
external LSB-first index and the oppositely ordered internal chain. -/
def reverse_all_bits (statevector : cvector_t) (num_qubits : Nat) : cvector_t :=
  (List.range (2 ^ num_qubits)).map
    (fun i => statevector.getD (reverse_bits num_qubits i) (0, 0))

/-- State::initialize_qreg(uint_t, const cvector_t&) (lines 362-373):
check the dimension, bit-reverse the external statevector, and hand it to
MPS::initialize_from_statevector (abstract parameter ifsv). -/
def State.init_qreg_sv (ifsv : Nat → cvector_t → MPS) (st : StateS)
    (num_qubits : Nat) (statevector : cvector_t) : Except String StateS :=
  if st.qreg.num_qubits ≠ num_qubits then
    Except.error
      "MatrixProductState::State::initialize: initial state does not match qubit number"
  else
    Except.ok
      { st with qreg := ifsv num_qubits (reverse_all_bits statevector num_qubits) }

/-- State::initialize_qreg(uint_t, const matrixproductstate_t&)
(lines 352-360): check the dimension; on a match the body only emits a
DEBUG print ("initialize with state not supported yet") and performs no
mutation, so the given MPS argument is ignored. -/
def State.init_qreg_mps (st : StateS) (num_qubits : Nat) (_state : MPS) :
    Except String StateS :=
  if st.qreg.num_qubits ≠ num_qubits then
    Except.error
      "MatrixProductState::State::initialize: initial state does not match qubit number"
  else
    Except.ok st

/-- State::apply_initialize (lines 726-741): the whole-register fast path
runs only when qubits has the register size and equals its own ascending
sort; every other call throws the partial-initialization diagnostic. -/
def State.apply_init (ifsv : Nat → cvector_t → MPS) (st : StateS)
    (qubits : reg_t) (params : cvector_t) : Except String StateS :=
  if qubits.length = st.qreg.num_qubits then
    (let sorted_qubits := List.insertionSort (· ≤ ·) qubits
     if qubits = sorted_qubits then
       State.init_qreg_sv ifsv st qubits.length params
     else
       Except.error "MPS_State: Partial initialization not supported yet.")
  else
    Except.error "MPS_State: Partial initialization not supported yet."

/-- State::measure_reset_update (lines 915-923): walk the targets and
apply X (abstract parameter appx) wherever the recorded outcome differs
from final_state. -/
def measure_reset_update (appx : MPS → Nat → MPS) :
    reg_t → List Nat → Nat → MPS → MPS
  | [], _, _, q => q
  | _ :: _, [], _, q => q
  | qb :: qs, mo :: ms, final_state, q =>
    measure_reset_update appx qs ms final_state
      (if mo ≠ final_state then appx q qb else q)

/-- State::apply_reset (lines 907-913): simulate an unobserved measurement
(abstract parameter appm, collapsing the register), then reset by
measure_reset_update with final_state 0.  The outcome is not stored in the
classical registers. -/
def State.apply_reset (appm : MPS → reg_t → RngEngine → List Nat × MPS × RngEngine)
    (appx : MPS → Nat → MPS) (st : StateS) (qubits : reg_t)
    (rng : RngEngine) : StateS × RngEngine :=
  let r := appm st.qreg qubits rng
  ({ st with qreg := measure_reset_update appx qubits r.1 0 r.2.1 }, r.2.2)

/-- The JSON configuration object as State::set_config reads it: one
optional value per key it queries (JSON::get_value returns false when the
key is absent). -/
structure JsonConfig where
  matrix_product_state_truncation_threshold : Option ℚ
  matrix_product_state_max_bond_dimension : Option Nat
  chop_threshold : Option Nat
  mps_parallel_threshold : Option Nat
  mps_omp_threads : Option Nat
  mps_sample_measure_algorithm : Option String

/-- The process-wide values State::set_config installs (static members of
MPS_Tensor and MPS). -/
@[ext]
structure Settings where
  truncation_threshold : ℚ
  max_bond_dimension : Nat
  json_chop_threshold : ℚ
  omp_threshold : Nat
  omp_threads : Nat
  sample_measure_alg : Sample_measure_alg

/-- State::set_config (lines 392-438).  Each key present installs the
given value, each absent key installs the documented default; for the
sample-measure algorithm an unrecognized string leaves the previously
installed value in place (the source sets nothing in that case), which is
why the previous settings are an argument. -/
def State.set_config (config : JsonConfig) (prev : Settings) : Settings :=
  { truncation_threshold :=
      match config.matrix_product_state_truncation_threshold with
      | some threshold => threshold
      | none => (1e-16 : ℚ)
    max_bond_dimension :=
      match config.matrix_product_state_max_bond_dimension with
      | some max_bond_dimension => max_bond_dimension
      | none => 18446744073709551615
    json_chop_threshold :=
      match config.chop_threshold with
      | some json_chop_threshold => (json_chop_threshold : ℚ)
      | none => (1e-8 : ℚ)
    omp_threshold :=
      match config.mps_parallel_threshold with
      | some omp_qubit_threshold => omp_qubit_threshold
      | none => 14
    omp_threads :=
      match config.mps_omp_threads with
      | some omp_threads => omp_threads
      | none => 1
    sample_measure_alg :=
      match config.mps_sample_measure_algorithm with
      | some alg =>
        if alg = "mps_probabilities" then Sample_measure_alg.PROB
        else if alg = "mps_apply_measure" then Sample_measure_alg.APPLY_MEASURE
        else prev.sample_measure_alg
      | none => Sample_measure_alg.HEURISTIC }

/-- A dense complex matrix as the wrapper sees it: only its element count
matters to the guard in State::apply_matrix. -/
structure Cmatrix where
  rows : Nat
  cols : Nat
  entries : List Cplx
deriving DecidableEq, Repr

/-- matrix::size() is rows times columns. -/
def Cmatrix.size (mat : Cmatrix) : Nat := mat.rows * mat.cols

/-- State::apply_matrix(const reg_t&, const cmatrix_t&) (lines 701-704):
delegate to MPS::apply_matrix (abstract parameter qapply) only when the
qubit list and the matrix are both non-empty; otherwise fall through
silently. -/
def State.apply_matrix_mat (qapply : MPS → reg_t → Cmatrix → MPS)
    (st : StateS) (qubits : reg_t) (mat : Cmatrix) : StateS :=
  if ¬ qubits.isEmpty ∧ mat.size > 0 then
    { st with qreg := qapply st.qreg qubits mat }
  else
    st

example : sample_measure_select .HEURISTIC 27 1000000 2 = .APPLY := by decide
example : sample_measure_select .HEURISTIC 9 1000000 100 = .PROB := by decide
example : sample_measure_select .HEURISTIC 12 10 64 = .PROB := by decide
example : sample_measure_select .PROB 30 10 64 = .PROB := by decide
example : sample_measure_select .APPLY_MEASURE 5 10 64 = .APPLY := by decide

lemma Frac.toRat_mul (x y : Frac) : (x.mul y).toRat = x.toRat * y.toRat := by
  simp only [Frac.mul, Frac.toRat]
  push_cast
  rw [div_mul_div_comm]

lemma Frac.toRat_fpow (x : Frac) (k : Nat) : (x.fpow k).toRat = x.toRat ^ k := by
  induction k with
  | zero => simp [Frac.fpow, Frac.toRat]
  | succ n ih => rw [Frac.fpow, Frac.toRat_mul, ih, pow_succ]

lemma Frac.den_mul (x y : Frac) : (x.mul y).den = x.den * y.den := rfl

lemma Frac.den_fpow (x : Frac) (k : Nat) : (x.fpow k).den = x.den ^ k := by
  induction k with
  | zero => rfl
  | succ n ih => rw [Frac.fpow, Frac.den_mul, ih, pow_succ]

lemma Frac.lt_iff_toRat {x y : Frac} (hx : 0 < x.den) (hy : 0 < y.den) :
    x.lt y ↔ x.toRat < y.toRat := by
  simp only [Frac.lt, Frac.toRat]
  rw [div_lt_div_iff₀ (by exact_mod_cast hx) (by exact_mod_cast hy)]
  exact_mod_cast Iff.rfl

lemma frac_band_iff (m cn cd rn rd k : Nat) (hcd : 0 < cd) (hrd : 0 < rd) :
    Frac.lt ⟨m, 1⟩ (Frac.mul ⟨cn, cd⟩ (Frac.fpow ⟨rn, rd⟩ k)) ↔
      (m : ℚ) < ((cn : ℚ) / (cd : ℚ)) * ((rn : ℚ) / (rd : ℚ)) ^ k := by
  rw [Frac.lt_iff_toRat (x := ⟨m, 1⟩) (by norm_num)
        (by rw [Frac.den_mul, Frac.den_fpow]
            exact Nat.mul_pos hcd (Nat.pos_pow_of_pos k hrd))]
  rw [Frac.toRat_mul, Frac.toRat_fpow]
  simp [Frac.toRat]

/-- C1 (amended): under the heuristic sampling policy, the strategy chosen
by State::sample_measure is APPLY (clone-and-measure) when the qubit count
N exceeds 26; PROB (marginal probabilities) when N is below 10; and
otherwise (10 ≤ N ≤ 26), with D the maximum bond dimension and m the shot
count, APPLY exactly when m < c * r ^ (N - 10) with (c, r) = (12, 1.85)
for D ≤ 2, (3, 1.75) for D ≤ 4, (2.5, 1.65) for D ≤ 8, (0.5, 1.75) for
D ≤ 16, and PROB for all larger D.  The selection is computed by the
deterministic function sample_measure_select of (N, D, m, policy). -/
theorem C1_heuristic_selection (N D m : Nat) :
    (26 < N → sample_measure_select .HEURISTIC N m D = .APPLY) ∧
    (N < 10 → sample_measure_select .HEURISTIC N m D = .PROB) ∧
    (10 ≤ N → N ≤ 26 →
      (sample_measure_select .HEURISTIC N m D = .APPLY ↔
        ((D ≤ 2 ∧ (m : ℚ) < 12 * (1.85 : ℚ) ^ (N - 10)) ∨
         (¬ D ≤ 2 ∧ D ≤ 4 ∧ (m : ℚ) < 3 * (1.75 : ℚ) ^ (N - 10)) ∨
         (¬ D ≤ 4 ∧ D ≤ 8 ∧ (m : ℚ) < 2.5 * (1.65 : ℚ) ^ (N - 10)) ∨
         (¬ D ≤ 8 ∧ D ≤ 16 ∧ (m : ℚ) < 0.5 * (1.75 : ℚ) ^ (N - 10))))) := by
  refine ⟨?_, ?_, ?_⟩
  · intro h
    simp only [sample_measure_select]
    rw [if_neg (by decide), if_pos (Or.inr h)]
  · intro h
    simp only [sample_measure_select]
    rw [if_neg (by decide), if_neg (by push_neg; exact ⟨by decide, by omega⟩),
        if_pos h]
  · intro h10 h26
    have b1 : Frac.lt ⟨m, 1⟩ (Frac.mul ⟨12, 1⟩ (Frac.fpow ⟨185, 100⟩ (N - 10))) ↔
        (m : ℚ) < 12 * (1.85 : ℚ) ^ (N - 10) := by
      rw [frac_band_iff m 12 1 185 100 (N - 10) one_pos (by norm_num)]; norm_num
    have b2 : Frac.lt ⟨m, 1⟩ (Frac.mul ⟨3, 1⟩ (Frac.fpow ⟨175, 100⟩ (N - 10))) ↔
        (m : ℚ) < 3 * (1.75 : ℚ) ^ (N - 10) := by
      rw [frac_band_iff m 3 1 175 100 (N - 10) one_pos (by norm_num)]; norm_num
    have b3 : Frac.lt ⟨m, 1⟩ (Frac.mul ⟨25, 10⟩ (Frac.fpow ⟨165, 100⟩ (N - 10))) ↔
        (m : ℚ) < 2.5 * (1.65 : ℚ) ^ (N - 10) := by
      rw [frac_band_iff m 25 10 165 100 (N - 10) (by norm_num) (by norm_num)]; norm_num
    have b4 : Frac.lt ⟨m, 1⟩ (Frac.mul ⟨5, 10⟩ (Frac.fpow ⟨175, 100⟩ (N - 10))) ↔
        (m : ℚ) < 0.5 * (1.75 : ℚ) ^ (N - 10) := by
      rw [frac_band_iff m 5 10 175 100 (N - 10) (by norm_num) (by norm_num)]; norm_num
    have k24 : D ≤ 2 → D ≤ 4 := by omega
    have k48 : D ≤ 4 → D ≤ 8 := by omega
    have k816 : D ≤ 8 → D ≤ 16 := by omega
    simp only [sample_measure_select]
    rw [if_neg (by decide), if_neg (by push_neg; exact ⟨by decide, by omega⟩),
        if_neg (by omega)]
    simp only [b1, b2, b3, b4]
    split_ifs <;> simp_all

/-- C1 witness: at N = 27 > 26 the heuristic policy chooses APPLY. -/
theorem C1_heuristic_selection_witness :
    26 < 27 ∧ sample_measure_select .HEURISTIC 27 5 1 = .APPLY :=
  ⟨by decide, (C1_heuristic_selection 27 1 5).1 (by decide)⟩

/-- C1 counterexample: the claim says the strategy is APPLY whenever
N ≥ 26, but at N = 26 (which is not > 26) with maximum bond dimension 2
and 300000 shots the code falls through to the D ≤ 2 band, where
300000 ≥ 12 * 1.85 ^ 16, and chooses PROB. -/
theorem C1_claim_counterexample :
    26 ≥ 26 ∧ sample_measure_select .HEURISTIC 26 300000 2 ≠ .APPLY := by
  decide

lemma sm_apply_loop_length
    (appm : MPS → reg_t → RngEngine → reg_t × MPS × RngEngine)
    (qreg : MPS) (qubits : reg_t) :
    ∀ shots rng, (sm_apply_loop appm qreg qubits shots rng).1.length = shots := by
  intro shots
  induction shots with
  | zero => intro rng; rfl
  | succ n ih =>
    intro rng
    simp only [sm_apply_loop, List.length_cons, ih]

/-- C2: State::sample_measure_using_apply_measure is a const method whose
loop measures a scratch register re-initialized from qreg_ at every shot:
whatever the measurement routine appm does, the state object comes back
unchanged, one sample is produced per shot, and the first shot measures a
fresh copy of qreg_ itself. -/
theorem C2_apply_measure_frame
    (appm : MPS → reg_t → RngEngine → reg_t × MPS × RngEngine)
    (st : StateS) (qubits : reg_t) (shots : Nat) (rng : RngEngine) :
    (State.sample_measure_using_apply_measure appm st qubits shots rng).2.1 = st ∧
    (State.sample_measure_using_apply_measure appm st qubits shots rng).1.length = shots ∧
    (0 < shots →
      (State.sample_measure_using_apply_measure appm st qubits shots rng).1.head? =
        some (appm st.qreg qubits rng).1) := by
  refine ⟨rfl, sm_apply_loop_length appm st.qreg qubits shots rng, ?_⟩
  intro hpos
  match shots, hpos with
  | n + 1, _ => rfl

/-- C2 witness: one shot with a measurement routine that just echoes the
qubit list. -/
theorem C2_apply_measure_frame_witness :
    0 < 1 ∧
      (State.sample_measure_using_apply_measure
          (fun q qs r => (qs, q, r)) ⟨⟨2, 0⟩, ⟨[]⟩⟩ [0, 1] 1 ⟨7⟩).1.head? =
        some [0, 1] :=
  ⟨Nat.one_pos,
    (C2_apply_measure_frame (fun q qs r => (qs, q, r))
        ⟨⟨2, 0⟩, ⟨[]⟩⟩ [0, 1] 1 ⟨7⟩).2.2 Nat.one_pos⟩

lemma lookup_eq_none_of_not_mem {β : Type} (l : List (String × β)) (a : String)
    (h : a ∉ l.map Prod.fst) : l.lookup a = none := by
  induction l with
  | nil => rfl
  | cons p t ih =>
    simp only [List.map_cons, List.mem_cons] at h
    push_neg at h
    have hne : (a == p.1) = false := by
      simpa [beq_iff_eq] using h.1
    simp [List.lookup, hne, ih h.2]

/-- C4: an operation whose gate name is not in gateset_ makes apply_gate
fail with an invalid-argument diagnostic quoting the name, and a snapshot
whose name is not in snapshotset_ makes apply_snapshot fail likewise; in
both cases the error is raised instead of producing any new state, so no
mutation happens. -/
theorem C4_unknown_name_diagnostic
    (applyKnown : Gates → Op → MPS → MPS)
    (handler : Snapshots → Op → StateS → StateS)
    (opg opst : Op) (st st2 : StateS)
    (hg : opg.name ∉ gateset_.map Prod.fst)
    (hs : opst.name ∉ snapshotset_.map Prod.fst) :
    State.apply_gate applyKnown opg st =
      Except.error
        ("MatrixProductState::State::invalid gate instruction \x27" ++ opg.name ++ "\x27.") ∧
    State.apply_snapshot handler opst st2 =
      Except.error
        ("MatrixProductState::invalid snapshot instruction \x27" ++ opst.name ++ "\x27.") := by
  constructor
  · simp [State.apply_gate, lookup_eq_none_of_not_mem _ _ hg]
  · simp [State.apply_snapshot, lookup_eq_none_of_not_mem _ _ hs]

/-- C4 witness: the gate name rx and the snapshot name foo are not
recognized, and the corresponding diagnostics quote them. -/
theorem C4_unknown_name_diagnostic_witness :
    ("rx" ∉ gateset_.map Prod.fst) ∧ ("foo" ∉ snapshotset_.map Prod.fst) ∧
    (State.apply_gate (fun _ _ q => q) ⟨"rx", [0], []⟩ ⟨⟨1, 0⟩, ⟨[]⟩⟩ =
        Except.error
          ("MatrixProductState::State::invalid gate instruction \x27" ++ "rx" ++ "\x27.") ∧
      State.apply_snapshot (fun _ _ s => s) ⟨"foo", [], []⟩ ⟨⟨1, 0⟩, ⟨[]⟩⟩ =
        Except.error
          ("MatrixProductState::invalid snapshot instruction \x27" ++ "foo" ++ "\x27.")) :=
  ⟨by decide, by decide,
    C4_unknown_name_diagnostic (fun _ _ q => q) (fun _ _ s => s)
      ⟨"rx", [0], []⟩ ⟨"foo", [], []⟩ ⟨⟨1, 0⟩, ⟨[]⟩⟩ ⟨⟨1, 0⟩, ⟨[]⟩⟩
      (by decide) (by decide)⟩

/-- C8: initialize_qreg on another MPS fails with the dimension diagnostic
exactly when the qubit counts disagree, and on agreement returns with the
register untouched (the copy path is unimplemented; the source only emits
a DEBUG print). -/
theorem C8_init_from_mps_unimplemented (st : StateS) (num_qubits : Nat)
    (other : MPS) :
    (st.qreg.num_qubits ≠ num_qubits →
      State.init_qreg_mps st num_qubits other =
        Except.error
          "MatrixProductState::State::initialize: initial state does not match qubit number") ∧
    (st.qreg.num_qubits = num_qubits →
      State.init_qreg_mps st num_qubits other = Except.ok st) := by
  constructor
  · intro h; simp [State.init_qreg_mps, h]
  · intro h; simp [State.init_qreg_mps, h]

/-- C8 witness: a 2-qubit register rejects a 3-qubit count and ignores a
matching-count copy request. -/
theorem C8_init_from_mps_unimplemented_witness :
    ((⟨⟨2, 5⟩, ⟨[]⟩⟩ : StateS).qreg.num_qubits ≠ 3 ∧
      State.init_qreg_mps ⟨⟨2, 5⟩, ⟨[]⟩⟩ 3 ⟨3, 9⟩ =
        Except.error
          "MatrixProductState::State::initialize: initial state does not match qubit number") ∧
    ((⟨⟨2, 5⟩, ⟨[]⟩⟩ : StateS).qreg.num_qubits = 2 ∧
      State.init_qreg_mps ⟨⟨2, 5⟩, ⟨[]⟩⟩ 2 ⟨2, 9⟩ = Except.ok ⟨⟨2, 5⟩, ⟨[]⟩⟩) :=
  ⟨⟨by decide,
      (C8_init_from_mps_unimplemented ⟨⟨2, 5⟩, ⟨[]⟩⟩ 3 ⟨3, 9⟩).1 (by decide)⟩,
    ⟨rfl, (C8_init_from_mps_unimplemented ⟨⟨2, 5⟩, ⟨[]⟩⟩ 2 ⟨2, 9⟩).2 rfl⟩⟩

/-- C10: apply_matrix with an empty qubit list or an empty matrix returns
silently without touching the state. -/
theorem C10_apply_matrix_empty_noop (qapply : MPS → reg_t → Cmatrix → MPS)
    (st : StateS) (qubits : reg_t) (mat : Cmatrix)
    (h : qubits = [] ∨ mat.size = 0) :
    State.apply_matrix_mat qapply st qubits mat = st := by
  rcases h with h | h
  · simp [State.apply_matrix_mat, h]
  · simp [State.apply_matrix_mat, h]

/-- C10 witness: an empty qubit list is a silent no-op even for a nonempty
matrix, and a 0 x 0 matrix is a silent no-op even for nonempty qubits. -/
theorem C10_apply_matrix_empty_noop_witness :
    State.apply_matrix_mat (fun q _ _ => ⟨q.num_qubits, q.payload + 1⟩)
        ⟨⟨2, 3⟩, ⟨[4]⟩⟩ [] ⟨2, 2, [(1, 0)]⟩ = ⟨⟨2, 3⟩, ⟨[4]⟩⟩ ∧
    State.apply_matrix_mat (fun q _ _ => ⟨q.num_qubits, q.payload + 1⟩)
        ⟨⟨2, 3⟩, ⟨[4]⟩⟩ [0, 1] ⟨0, 0, []⟩ = ⟨⟨2, 3⟩, ⟨[4]⟩⟩ :=
  ⟨C10_apply_matrix_empty_noop _ _ _ _ (Or.inl rfl),
    C10_apply_matrix_empty_noop _ _ _ _ (Or.inr rfl)⟩

lemma measure_reset_update_eq_foldl (appx : MPS → Nat → MPS) :
    ∀ (qubits : reg_t) (meas : List Nat), (∀ b ∈ meas, b ≤ 1) → ∀ q : MPS,
      measure_reset_update appx qubits meas 0 q =
        ((qubits.zip meas).filter (fun p => p.2 == 1)).foldl
          (fun a p => appx a p.1) q := by
  intro qubits
  induction qubits with
  | nil => intro meas _ q; cases meas <;> rfl
  | cons qb qs ih =>
    intro meas hb q
    cases meas with
    | nil => rfl
    | cons mo ms =>
      have hmo : mo ≤ 1 := hb mo (List.mem_cons_self mo ms)
      have hms : ∀ b ∈ ms, b ≤ 1 := fun b hbm => hb b (List.mem_cons_of_mem mo hbm)
      interval_cases mo
      · simpa [measure_reset_update] using ih ms hms q
      · simpa [measure_reset_update] using ih ms hms (appx q qb)

/-- C6: apply_reset measures the targets without storing the outcome in
the classical registers (creg_ is untouched), then applies X to exactly
those targets whose measurement outcome is 1. -/
theorem C6_reset_applies_x_on_ones
    (appm : MPS → reg_t → RngEngine → List Nat × MPS × RngEngine)
    (appx : MPS → Nat → MPS) (st : StateS) (qubits : reg_t) (rng : RngEngine)
    (hbits : ∀ b ∈ (appm st.qreg qubits rng).1, b ≤ 1) :
    State.apply_reset appm appx st qubits rng =
      (⟨((qubits.zip (appm st.qreg qubits rng).1).filter
            (fun p => p.2 == 1)).foldl (fun a p => appx a p.1)
          (appm st.qreg qubits rng).2.1,
        st.creg⟩,
       (appm st.qreg qubits rng).2.2) := by
  simp only [State.apply_reset]
  rw [measure_reset_update_eq_foldl appx qubits (appm st.qreg qubits rng).1 hbits]

/-- C6 witness: measuring qubits 3 and 5 with outcomes 1 and 0 applies X
to qubit 3 only and leaves the classical register as it was. -/
theorem C6_reset_applies_x_on_ones_witness :
    (∀ b ∈ [1, 0], b ≤ 1) ∧
      State.apply_reset (fun q _ r => ([1, 0], ⟨q.num_qubits, q.payload * 2⟩, ⟨r.seed + 3⟩))
          (fun q n => ⟨q.num_qubits, q.payload + n + 1⟩)
          ⟨⟨6, 5⟩, ⟨[9]⟩⟩ [3, 5] ⟨11⟩ =
        (⟨⟨6, 14⟩, ⟨[9]⟩⟩, ⟨14⟩) :=
  ⟨by decide,
    (C6_reset_applies_x_on_ones
        (fun q _ r => ([1, 0], ⟨q.num_qubits, q.payload * 2⟩, ⟨r.seed + 3⟩))
        (fun q n => ⟨q.num_qubits, q.payload + n + 1⟩)
        ⟨⟨6, 5⟩, ⟨[9]⟩⟩ [3, 5] ⟨11⟩ (by decide)).trans (by decide)⟩

/-- C7: set_config installs the documented default whenever the matching
configuration key is absent: truncation threshold 1e-16, maximum bond
dimension UINT64_MAX (unbounded), chop threshold 1e-8, OMP qubit
threshold 14, one worker thread, and the heuristic sampling algorithm. -/
theorem C7_set_config_defaults (config : JsonConfig) (prev : Settings) :
    (config.matrix_product_state_truncation_threshold = none →
      (State.set_config config prev).truncation_threshold = (1e-16 : ℚ)) ∧
    (config.matrix_product_state_max_bond_dimension = none →
      (State.set_config config prev).max_bond_dimension = 18446744073709551615) ∧
    (config.chop_threshold = none →
      (State.set_config config prev).json_chop_threshold = (1e-8 : ℚ)) ∧
    (config.mps_parallel_threshold = none →
      (State.set_config config prev).omp_threshold = 14) ∧
    (config.mps_omp_threads = none →
      (State.set_config config prev).omp_threads = 1) ∧
    (config.mps_sample_measure_algorithm = none →
      (State.set_config config prev).sample_measure_alg =
        Sample_measure_alg.HEURISTIC) := by
  refine ⟨fun h => ?_, fun h => ?_, fun h => ?_, fun h => ?_, fun h => ?_,
    fun h => ?_⟩ <;> simp [State.set_config, h]

/-- C7 witness: the all-absent configuration installs every default, for
any previous settings value. -/
theorem C7_set_config_defaults_witness :
    State.set_config ⟨none, none, none, none, none, none⟩
        ⟨0, 0, 0, 0, 0, Sample_measure_alg.PROB⟩ =
      ⟨(1e-16 : ℚ), 18446744073709551615, (1e-8 : ℚ), 14, 1,
        Sample_measure_alg.HEURISTIC⟩ := by
  have h := C7_set_config_defaults ⟨none, none, none, none, none, none⟩
    ⟨0, 0, 0, 0, 0, Sample_measure_alg.PROB⟩
  obtain ⟨h1, h2, h3, h4, h5, h6⟩ := h
  exact Settings.ext (h1 rfl) (h2 rfl) (h3 rfl) (h4 rfl) (h5 rfl) (h6 rfl)

lemma sum_bits_lt (n : Nat) (b : Nat → Nat) (hb : ∀ k, b k ≤ 1) :
    (∑ k ∈ Finset.range n, b k * 2 ^ k) < 2 ^ n := by
  induction n with
  | zero => simp
  | succ m ih =>
    rw [Finset.sum_range_succ]
    have h1 : b m * 2 ^ m ≤ 2 ^ m := by
      calc b m * 2 ^ m ≤ 1 * 2 ^ m := Nat.mul_le_mul_right _ (hb m)
      _ = 2 ^ m := one_mul _
    have h2 : (2 : Nat) ^ (m + 1) = 2 ^ m + 2 ^ m := by rw [pow_succ]; omega
    omega

lemma reverse_bits_sum (n : Nat) (b : Nat → Nat) (hb : ∀ k, b k ≤ 1) :
    reverse_bits n (∑ k ∈ Finset.range n, b k * 2 ^ k) =
      ∑ k ∈ Finset.range n, b k * 2 ^ (n - 1 - k) := by
  induction n generalizing b with
  | zero => simp [reverse_bits]
  | succ m ih =>
    have hsum : (∑ k ∈ Finset.range (m + 1), b k * 2 ^ k) =
        2 * (∑ k ∈ Finset.range m, b (k + 1) * 2 ^ k) + b 0 := by
      rw [Finset.sum_range_succ', Finset.mul_sum]
      simp only [pow_succ, pow_zero, mul_one]
      congr 1
      exact Finset.sum_congr rfl fun k _ => by ring
    rw [hsum, reverse_bits]
    have hb0 : b 0 ≤ 1 := hb 0
    have hmod : (2 * (∑ k ∈ Finset.range m, b (k + 1) * 2 ^ k) + b 0) % 2 = b 0 := by
      omega
    have hdiv : (2 * (∑ k ∈ Finset.range m, b (k + 1) * 2 ^ k) + b 0) / 2 =
        ∑ k ∈ Finset.range m, b (k + 1) * 2 ^ k := by
      omega
    rw [hmod, hdiv, ih (fun k => b (k + 1)) (fun k => hb (k + 1))]
    rw [Finset.sum_range_succ']
    simp only [Nat.succ_sub_one, Nat.sub_zero]
    have hexp : ∀ k, m - 1 - k = m - (k + 1) := fun k => by omega
    rw [Nat.add_comm]
    congr 1
    exact Finset.sum_congr rfl fun k _ => by rw [hexp k]

lemma sum_bits_reflect (n : Nat) (b : Nat → Nat) :
    (∑ k ∈ Finset.range n, b k * 2 ^ (n - 1 - k)) =
      ∑ k ∈ Finset.range n, b (n - 1 - k) * 2 ^ k := by
  rw [← Finset.sum_range_reflect (fun k => b k * 2 ^ (n - 1 - k)) n]
  refine Finset.sum_congr rfl fun k hk => ?_
  have hk' : k < n := Finset.mem_range.mp hk
  have : n - 1 - (n - 1 - k) = k := by omega
  rw [this]

lemma reverse_all_bits_getD (v : cvector_t) (n j : Nat) (hj : j < 2 ^ n) :
    (reverse_all_bits v n).getD j (0, 0) =
      v.getD (reverse_bits n j) (0, 0) := by
  simp only [reverse_all_bits]
  rw [List.getD_eq_getElem?_getD, List.getElem?_map, List.getElem?_range hj]
  rfl

/-- C3: initialize_qreg on a statevector with matching qubit count
bit-reverses the vector before handing it to
MPS::initialize_from_statevector, and the reversal realizes the external
index contract: the entry the internal chain sees at index
sum bit_k * 2^(n-1-k) (site 0 most significant internally) is the external
amplitude at index b = sum bit_k * 2^k (qubit 0 least significant). -/
theorem C3_init_statevector_bit_reversal (ifsv : Nat → cvector_t → MPS)
    (st : StateS) (n : Nat) (v : cvector_t)
    (h : st.qreg.num_qubits = n) :
    State.init_qreg_sv ifsv st n v =
      Except.ok { st with qreg := ifsv n (reverse_all_bits v n) } ∧
    (∀ b : Nat → Nat, (∀ k, b k ≤ 1) →
      (reverse_all_bits v n).getD (∑ k ∈ Finset.range n, b k * 2 ^ (n - 1 - k)) (0, 0) =
        v.getD (∑ k ∈ Finset.range n, b k * 2 ^ k) (0, 0)) := by
  constructor
  · simp [State.init_qreg_sv, h]
  · intro b hb
    have hlt : (∑ k ∈ Finset.range n, b k * 2 ^ (n - 1 - k)) < 2 ^ n := by
      rw [sum_bits_reflect]
      exact sum_bits_lt n (fun k => b (n - 1 - k)) (fun k => hb (n - 1 - k))
    rw [reverse_all_bits_getD v n _ hlt]
    congr 1
    rw [sum_bits_reflect, reverse_bits_sum n (fun k => b (n - 1 - k)) (fun k => hb (n - 1 - k))]
    exact Finset.sum_range_reflect (fun k => b k * 2 ^ k) n

/-- C3 witness: a 2-qubit statevector is ingested bit-reversed; with
bits (b0, b1) = (1, 0) the internal index 2 reads the external amplitude
at index 1. -/
theorem C3_init_statevector_bit_reversal_witness :
    ((⟨⟨2, 0⟩, ⟨[]⟩⟩ : StateS).qreg.num_qubits = 2 ∧
      State.init_qreg_sv (fun nq _ => ⟨nq, 1⟩) ⟨⟨2, 0⟩, ⟨[]⟩⟩ 2
          [(10, 0), (11, 0), (12, 0), (13, 0)] =
        Except.ok ⟨⟨2, 1⟩, ⟨[]⟩⟩) ∧
    (reverse_all_bits [(10, 0), (11, 0), (12, 0), (13, 0)] 2).getD 2 (0, 0) =
      (11, 0) := by
  have h := C3_init_statevector_bit_reversal (fun nq _ => ⟨nq, 1⟩)
    ⟨⟨2, 0⟩, ⟨[]⟩⟩ 2 [(10, 0), (11, 0), (12, 0), (13, 0)] rfl
  refine ⟨⟨rfl, h.1⟩, ?_⟩
  have h2 := h.2 (fun k => if k = 0 then 1 else 0) (fun k => by dsimp; split <;> omega)
  simpa using h2

/-- C5 counterexample: on a 2-qubit register the qubit list [0, 0] denotes
the proper subset containing only qubit 0, yet apply_initialize takes the
whole-register initialization path instead of failing: the list has the
register size and equals its own ascending sort, which is all the code
checks. -/
theorem C5_claim_counterexample :
    (∀ q ∈ ([0, 0] : reg_t), q < 2) ∧ ((1 : Nat) < 2 ∧ (1 : Nat) ∉ ([0, 0] : reg_t)) ∧
    State.apply_init (fun nq _ => ⟨nq, 1⟩) ⟨⟨2, 0⟩, ⟨[]⟩⟩ [0, 0] [] =
      Except.ok ⟨⟨2, 1⟩, ⟨[]⟩⟩ := by
  decide

/-- C5 (amended): for duplicate-free qubit lists whose entries are valid
qubit indices, apply_initialize fails with the partial-initialization
diagnostic whenever some register qubit is missing from the list, and the
whole-register initialization path succeeds only when the list contains
every qubit of the register. -/
theorem C5_partial_init_rejected (ifsv : Nat → cvector_t → MPS)
    (st : StateS) (qubits : reg_t) (params : cvector_t)
    (hnodup : qubits.Nodup)
    (hrange : ∀ q ∈ qubits, q < st.qreg.num_qubits) :
    ((∃ q, q < st.qreg.num_qubits ∧ q ∉ qubits) →
      State.apply_init ifsv st qubits params =
        Except.error "MPS_State: Partial initialization not supported yet.") ∧
    (∀ s : StateS, State.apply_init ifsv st qubits params = Except.ok s →
      ∀ q, q < st.qreg.num_qubits → q ∈ qubits) := by
  have key : (∃ q, q < st.qreg.num_qubits ∧ q ∉ qubits) →
      State.apply_init ifsv st qubits params =
        Except.error "MPS_State: Partial initialization not supported yet." := by
    rintro ⟨q0, hq0, hq0n⟩
    have hsub : qubits.toFinset ⊆ (Finset.range st.qreg.num_qubits).erase q0 := by
      intro a ha
      rw [List.mem_toFinset] at ha
      rw [Finset.mem_erase, Finset.mem_range]
      exact ⟨fun he => hq0n (he ▸ ha), hrange a ha⟩
    have hcard : qubits.length ≤ st.qreg.num_qubits - 1 := by
      have h1 : qubits.toFinset.card = qubits.length :=
        List.toFinset_card_of_nodup hnodup
      have h2 := Finset.card_le_card hsub
      rw [Finset.card_erase_of_mem (Finset.mem_range.mpr hq0),
        Finset.card_range] at h2
      omega
    have hlen : qubits.length ≠ st.qreg.num_qubits := by omega
    simp [State.apply_init, hlen]
  refine ⟨key, ?_⟩
  intro s hok q hq
  by_contra hqn
  rw [key ⟨q, hq, hqn⟩] at hok
  cases hok

/-- C5 witness: the duplicate-free list [0] on a 2-qubit register misses
qubit 1 and is rejected with the partial-initialization diagnostic. -/
theorem C5_partial_init_rejected_witness :
    (([0] : reg_t).Nodup ∧ (∀ q ∈ ([0] : reg_t), q < 2) ∧
      (1 : Nat) < 2 ∧ (1 : Nat) ∉ ([0] : reg_t)) ∧
    State.apply_init (fun nq _ => ⟨nq, 1⟩) ⟨⟨2, 0⟩, ⟨[]⟩⟩ [0] [] =
      Except.error "MPS_State: Partial initialization not supported yet." :=
  ⟨⟨by decide, by decide, by decide, by decide⟩,
    (C5_partial_init_rejected (fun nq _ => ⟨nq, 1⟩) ⟨⟨2, 0⟩, ⟨[]⟩⟩ [0] []
        (by decide) (by decide)).1 ⟨1, by decide, by decide⟩⟩

/-- C9: a qubit list that is a permutation of the full register but not in
ascending order fails the qubits == sorted_qubits check and is rejected
with the partial-initialization diagnostic instead of initializing the
register. -/
theorem C9_unsorted_full_register_rejected (ifsv : Nat → cvector_t → MPS)
    (st : StateS) (qubits : reg_t) (params : cvector_t)
    (hperm : qubits.Perm (List.range st.qreg.num_qubits))
    (hnsort : ¬ List.Sorted (· ≤ ·) qubits) :
    State.apply_init ifsv st qubits params =
      Except.error "MPS_State: Partial initialization not supported yet." := by
  have hlen : qubits.length = st.qreg.num_qubits := by
    simpa using hperm.length_eq
  have hne : qubits ≠ List.insertionSort (· ≤ ·) qubits := by
    intro he
    exact hnsort (he ▸ List.sorted_insertionSort (· ≤ ·) qubits)
  simp [State.apply_init, hlen, hne]

/-- C9 witness: [1, 0] lists both qubits of a 2-qubit register out of
order and is rejected. -/
theorem C9_unsorted_full_register_rejected_witness :
    (([1, 0] : reg_t).Perm (List.range 2) ∧
      ¬ List.Sorted (· ≤ ·) ([1, 0] : reg_t)) ∧
    State.apply_init (fun nq _ => ⟨nq, 1⟩) ⟨⟨2, 0⟩, ⟨[]⟩⟩ [1, 0] [] =
      Except.error "MPS_State: Partial initialization not supported yet." :=
  ⟨⟨by decide, by decide⟩,
    C9_unsorted_full_register_rejected (fun nq _ => ⟨nq, 1⟩) ⟨⟨2, 0⟩, ⟨[]⟩⟩
      [1, 0] [] (by decide) (by decide)⟩

end MPSVerify
